import Mathlib

set_option maxRecDepth 100000

/-!
Verification of the electricity-consumption dashboard (`andmed.py`).

Shallow embedding conventions:
* calendar dates are integers (days since an arbitrary epoch), so "next
  calendar day" is `+ 1`;
* consumption values are rationals;
* the external parsers (pandas `to_datetime`, `float`) and the network are
  abstracted as functions returning `Option`/outcome values, while every line
  of control flow of the repository itself is embedded faithfully.
-/

namespace Andmed

/-! ## Consecutive-window finder (`find_100_day_consecutive_window`) -/

/-- `sorted(list(set(dates_in_df)))` : the distinct dates, ascending.
(`set` is embedded as `dedup`, `sorted` as an insertion sort.) -/
def uniqueSortedDates (dates : List Int) : List Int :=
  dates.dedup.insertionSort (· ≤ ·)

/-- The inner loop `for j in range(1, 100)` of the finder: at start index `i`,
every offset `j ∈ [1, 99]` must be in bounds and hold the date `u[i] + j`.
(The Python loop breaks at the first failing `j`; `List.all` is the same
condition without the early exit.) -/
def isConsecutiveAt (u : List Int) (i : Nat) : Bool :=
  (List.range' 1 99).all (fun j =>
    decide (i + j < u.length) && decide (u.getD (i + j) 0 = u.getD i 0 + (j : Int)))

/-- `find_100_day_consecutive_window`: sort the distinct dates; if fewer than
100, return `None`; otherwise return, for the first start index `i` in
`range(len - 99)` passing the consecutive check, the window
`[start + k for k in range(100)]`. -/
def find_100_day_consecutive_window (dates : List Int) : Option (List Int) :=
  if (uniqueSortedDates dates).length < 100 then none
  else
    match (List.range ((uniqueSortedDates dates).length - 99)).find?
        (fun i => isConsecutiveAt (uniqueSortedDates dates) i) with
    | some i =>
      some ((List.range 100).map
        (fun (k : Nat) => (uniqueSortedDates dates).getD i 0 + (k : Int)))
    | none => none

/-! ## Readings and the daily completeness table
(`load_single_dataset` rows after parsing, `df_single_pivoted`,
`pivot_df`, `pivot_df_cleaned`) -/

/-- One retained row of a dataset: the calendar date, the hour of day, and
the consumption value (`df['date']`, `df['hour']`, `df['consumption']`). -/
structure Reading where
  date : Int
  hour : Nat
  value : Rat
deriving DecidableEq

/-- The consumption values of all readings in the `(date, hour)` bucket, in
row order (the rows `groupby(['date','hour'])` aggregates for that key). -/
def bucketValues (rs : List Reading) (d : Int) (h : Nat) : List Rat :=
  (rs.filter (fun r => decide (r.date = d) && decide (r.hour = h))).map Reading.value

/-- One step of the groupby aggregation: fold one reading into the running
per-key (sum, count) table. -/
def addReading (acc : Int × Nat → Rat × Nat) (r : Reading) : Int × Nat → Rat × Nat :=
  fun k =>
    if k = (r.date, r.hour) then ((acc k).1 + r.value, (acc k).2 + 1) else acc k

/-- The per-`(date, hour)` (sum, count) table accumulated over all rows:
the state `groupby(['date','hour'])['consumption']` builds before `.mean()`. -/
def sumCounts (rs : List Reading) : Int × Nat → Rat × Nat :=
  rs.foldl addReading (fun _ => (0, 0))

/-- `df_single_pivoted` / `pivot_df` cell at `(date, hour)`: the mean of the
bucket when the bucket is non-empty, `NaN` (here `none`) otherwise. -/
def bucketMean (rs : List Reading) (d : Int) (h : Nat) : Option Rat :=
  let sc := sumCounts rs (d, h)
  if sc.2 = 0 then none else some (sc.1 / (sc.2 : Rat))

/-- The hours that occur anywhere in the dataset: the columns of
`pivot_table(index='date', columns='hour', values='consumption')`. -/
def datasetHours (rs : List Reading) : List Nat :=
  (rs.map Reading.hour).dedup

/-- The dates that occur anywhere in the dataset: the rows of the pivot
table, and also `set(df['date'])` in the common-day path. -/
def datasetDates (rs : List Reading) : List Int :=
  (rs.map Reading.date).dedup

/-- Whether the `(date, hour)` bucket has at least one reading (the pivot
cell is not `NaN`). -/
def hasBucket (rs : List Reading) (d : Int) (h : Nat) : Bool :=
  rs.any (fun r => decide (r.date = d) && decide (r.hour = h))

/-- Membership of date `d` in `pivot_df_cleaned.index`, i.e. `pivot_df.dropna()`:
`d` is a row of the pivot (occurs in the data) and none of the pivot's columns
— the hours occurring anywhere in the dataset — is `NaN` on that row. -/
def eligible (rs : List Reading) (d : Int) : Bool :=
  (datasetDates rs).contains d && (datasetHours rs).all (fun h => hasBucket rs d h)

/-- The property the spec asserts of eligibility (for comparison with
`eligible`): all 24 hour buckets, hours 0 through 23, are populated on date
`d`. -/
def eligible24 (rs : List Reading) (d : Int) : Bool :=
  (List.range 24).all (fun h => hasBucket rs d h)

/-- The arithmetic mean of a list of values (the spec's wording of the
bucket aggregation). -/
def arithMean (l : List Rat) : Rat :=
  l.sum / (l.length : Rat)

/-! ## Common-day resolver (`common_dates`) -/

/-- `reduce(lambda a, b: a & b, list_of_date_sets)` followed by
`sorted(..., reverse=True)`, with the guard `if not list_of_date_sets` giving
`[]`. Sets are embedded as dedup lists; `a & b` keeps the members of `a`
that are in `b`; descending sort is the reverse of the ascending sort. -/
def common_dates (dss : List (List Reading)) : List Int :=
  match dss.map datasetDates with
  | [] => []
  | s :: rest =>
    ((rest.foldl (fun a b => a.filter (fun d => b.contains d)) s).insertionSort
      (· ≤ ·)).reverse

/-! ## Reading normalizer (`load_single_dataset`)

The two external parsers are abstracted by their outcomes on each raw row:
* `ts` is the result of `pd.to_datetime(..., dayfirst=True, errors='coerce')`
  on the row's timestamp string — `none` is `NaT`;
* `val` is the outcome of `float(consumption_str.replace(',', '.'))` —
  `ok q` a parsed number, `nanVal` a string such as `"nan"` that parses to a
  float `NaN`, `err` a string on which `float` raises `ValueError`.

The control flow of the function itself is embedded exactly: the timestamp
column is coerced row by row; `.astype(float)` raises as soon as any row's
value is `err`, the `except` catches it and returns an empty frame; otherwise
`dropna(subset=['timestamp', 'consumption'])` drops the rows whose timestamp
is `NaT` or whose value is `NaN`. -/

/-- Outcome of `float` on one consumption string. -/
inductive ValParse where
  | ok (q : Rat)
  | nanVal
  | err
deriving DecidableEq

/-- One raw CSV row, represented by the outcomes of the two parses. -/
structure RawRow where
  ts : Option Int
  val : ValParse
deriving DecidableEq

/-- `load_single_dataset`, returning the retained `(timestamp, value)` rows. -/
def load_single_dataset (rows : List RawRow) : List (Int × Rat) :=
  if rows.any (fun r => decide (r.val = ValParse.err)) then []
  else
    rows.filterMap (fun r =>
      match r.ts, r.val with
      | some t, ValParse.ok v => some (t, v)
      | _, _ => none)

/-! ## Download batch (`download_data_if_needed`)

The file system is a map from dataset id to optional byte content; the
network is a fixed function `net` where `none` stands for any
`requests.exceptions.RequestException` (timeout, connection error, or the
`raise_for_status` of a non-2xx response); `writeOk` tells whether
`file_path.write_bytes` succeeds for that id. A `false` write raises an
`OSError`, which the `except requests.exceptions.RequestException` clause
does not catch, so the whole loop aborts — modelled by the `none` result. -/

/-- The external world of one run: network responses and write outcomes. -/
structure DlEnv where
  net : String → Option (List Nat)
  writeOk : String → Bool

/-- The body of the download loop for one dataset id `h`:
skip when the file exists; otherwise fetch, and on success write the bytes.
`none` means an uncaught exception escaped the loop body. -/
def downloadOne (env : DlEnv) (fs : String → Option (List Nat)) (h : String) :
    Option (String → Option (List Nat)) :=
  match fs h with
  | some _ => some fs
  | none =>
    match env.net h with
    | none => some fs
    | some content =>
      if env.writeOk h then some (fun x => if x = h then some content else fs x)
      else none

/-- `download_data_if_needed` over the list of ids, threading the file
system; an uncaught exception in one iteration aborts the rest. -/
def download_data_if_needed (env : DlEnv) (hashes : List String)
    (fs : String → Option (List Nat)) : Option (String → Option (List Nat)) :=
  match hashes with
  | [] => some fs
  | h :: rest =>
    match downloadOne env fs h with
    | some fs2 => download_data_if_needed env rest fs2
    | none => none

/-! ## Concrete fixtures used by witnesses and counterexamples -/

/-- 100 consecutive dates `0, 1, ..., 99`. -/
def runDates : List Int :=
  (List.range 100).map (fun (n : Nat) => (n : Int))

/-- A dataset whose one date `0` has hours `0..22` — hour 23 occurs nowhere
in the file. -/
def rs23 : List Reading :=
  (List.range 23).map (fun h => ⟨0, h, 1⟩)

/-- A dataset whose one date `0` carries a single reading, at hour 0. -/
def dsX : List Reading := [⟨0, 0, 1⟩]

/-- A second dataset with the same single date `0`, at hour 0. -/
def dsY : List Reading := [⟨0, 0, 2⟩]

/-- A raw row on which both parses succeed. -/
def goodRow : RawRow := ⟨some 0, ValParse.ok 1⟩

/-- A raw row whose consumption string makes `float` raise. -/
def badRow : RawRow := ⟨some 1, ValParse.err⟩

/-- Rows with no raising value: one fully good, one with `NaT` timestamp,
one with a `NaN` value. -/
def mixedRows : List RawRow :=
  [goodRow, ⟨none, ValParse.ok 2⟩, ⟨some 3, ValParse.nanVal⟩]

/-- A download environment in which the network answers every id but the
write of file "a" fails with an `OSError`. -/
def envBadWrite : DlEnv :=
  ⟨fun s => if s = "a" then some [1] else some [2], fun s => decide (s ≠ "a")⟩

/-- A download environment in which fetching "a" raises a
`RequestException` and everything else succeeds. -/
def envNetFail : DlEnv :=
  ⟨fun s => if s = "a" then none else some [2], fun _ => true⟩

end Andmed

section Scratch

open Andmed

example : uniqueSortedDates [3, 1, 2, 1] = [1, 2, 3] := by decide

example : find_100_day_consecutive_window [1, 2, 3] = none := by decide

example :
    find_100_day_consecutive_window ((List.range 100).map (fun (n : Nat) => (n : Int)))
      = some ((List.range 100).map (fun (n : Nat) => (n : Int))) := by decide

example : bucketMean [⟨0, 0, 1⟩, ⟨0, 0, 3⟩] 0 0 = some 2 := by
  norm_num [bucketMean, sumCounts, addReading]

example : bucketMean [⟨0, 0, 1⟩, ⟨0, 0, 3⟩] 0 1 = none := by
  norm_num [bucketMean, sumCounts, addReading]

example : eligible [⟨0, 0, 1⟩, ⟨0, 1, 2⟩, ⟨1, 0, 5⟩] 0 = true := by decide

example : eligible [⟨0, 0, 1⟩, ⟨0, 1, 2⟩, ⟨1, 0, 5⟩] 1 = false := by decide

example : eligible24 [⟨0, 0, 1⟩, ⟨0, 1, 2⟩] 0 = false := by decide

example : common_dates [[⟨0, 0, 1⟩, ⟨2, 0, 1⟩, ⟨1, 0, 1⟩], [⟨1, 0, 2⟩, ⟨2, 3, 2⟩]]
    = [2, 1] := by decide

example : load_single_dataset [⟨some 0, ValParse.ok 1⟩, ⟨none, ValParse.ok 2⟩,
    ⟨some 3, ValParse.nanVal⟩] = [(0, 1)] := by decide

example : load_single_dataset [⟨some 0, ValParse.ok 1⟩, ⟨some 1, ValParse.err⟩]
    = [] := by decide

example :
    download_data_if_needed ⟨fun _ => some [7], fun _ => true⟩ ["a"] (fun _ => none)
      = some (fun x => if x = "a" then some [7] else none) := by
  simp [download_data_if_needed, downloadOne]

end Scratch

namespace Andmed

/-! ## Helper lemmas: the sorted distinct date list -/

theorem mem_uniqueSortedDates {l : List Int} {x : Int} :
    x ∈ uniqueSortedDates l ↔ x ∈ l := by
  unfold uniqueSortedDates
  rw [List.mem_insertionSort, List.mem_dedup]

theorem nodup_uniqueSortedDates (l : List Int) : (uniqueSortedDates l).Nodup :=
  ((List.perm_insertionSort _ _).nodup_iff).2 l.nodup_dedup

theorem sorted_le_uniqueSortedDates (l : List Int) :
    (uniqueSortedDates l).Sorted (· ≤ ·) :=
  List.sorted_insertionSort _ _

theorem sorted_uniqueSortedDates (l : List Int) :
    (uniqueSortedDates l).Sorted (· < ·) :=
  (sorted_le_uniqueSortedDates l).lt_of_le (nodup_uniqueSortedDates l)

/-! ## Helper lemmas: `find?` returns the first hit -/

theorem find_first_spec {α : Type} (p : α → Bool) (l : List α) (a : α)
    (h : l.find? p = some a) :
    ∃ i : Fin l.length, l.get i = a ∧ p a = true ∧
      ∀ j : Fin l.length, (j : Nat) < (i : Nat) → p (l.get j) = false := by
  induction l with
  | nil => simp [List.find?] at h
  | cons x xs ih =>
    by_cases hx : p x
    · rw [List.find?_cons_of_pos _ hx] at h
      obtain rfl : x = a := by simpa using h
      exact ⟨⟨0, by simp⟩, rfl, hx,
        fun j hj => absurd (by simpa using hj : (j : Nat) < 0) (Nat.not_lt_zero _)⟩
    · rw [List.find?_cons_of_neg _ hx] at h
      obtain ⟨i, hget, hpa, hfirst⟩ := ih h
      refine ⟨⟨(i : Nat) + 1, by simpa using Nat.succ_lt_succ i.isLt⟩, by simpa using hget,
        hpa, ?_⟩
      intro j hj
      match j with
      | ⟨0, _⟩ => simpa using hx
      | ⟨jj + 1, hlt⟩ =>
        have hjj := hfirst ⟨jj, by simpa using Nat.lt_of_succ_lt_succ hlt⟩
          (by simpa using Nat.lt_of_succ_lt_succ hj)
        simpa using hjj

theorem find_range_first {n : Nat} {p : Nat → Bool} {i : Nat}
    (h : (List.range n).find? p = some i) :
    i < n ∧ p i = true ∧ ∀ j, j < i → p j = false := by
  obtain ⟨idx, hget, hpa, hfirst⟩ := find_first_spec p (List.range n) i h
  have hin : (idx : Nat) < n := by
    have := idx.isLt
    simpa using this
  have hidx : (idx : Nat) = i := by
    have hr : (List.range n).get idx = (idx : Nat) := @List.get_range n (idx : Nat) idx.isLt
    rw [hget] at hr
    exact hr.symm
  refine ⟨by omega, hpa, ?_⟩
  intro j hj
  have hjn : j < (List.range n).length := by
    simp only [List.length_range]
    omega
  have hpj := hfirst ⟨j, hjn⟩ (by simpa [hidx] using hj)
  rwa [List.get_range] at hpj

/-! ## Helper lemmas: consecutive runs inside a strictly sorted list

If a strictly sorted integer list contains `s, s+1, ..., s+j` and `s` sits at
index `i`, then `s + j` sits exactly at index `i + j`: integers leave no room
for anything strictly between consecutive members of the run. -/

theorem sorted_get_step (u : List Int) (hu : u.Sorted (· < ·))
    (i : Nat) (hi : i < u.length) : ∀ j : Nat,
    (∀ k : Nat, k ≤ j → u.get ⟨i, hi⟩ + (k : Int) ∈ u) →
    ∃ hij : i + j < u.length, u.get ⟨i + j, hij⟩ = u.get ⟨i, hi⟩ + (j : Int) := by
  intro j
  induction j with
  | zero => exact fun _ => ⟨hi, by simp⟩
  | succ j ih =>
    intro hmem
    obtain ⟨hij, hval⟩ := ih (fun k hk => hmem k (Nat.le_succ_of_le hk))
    have hmem1 : u.get ⟨i, hi⟩ + ((j : Int) + 1) ∈ u := by
      have h1 := hmem (j + 1) le_rfl
      push_cast at h1
      exact h1
    obtain ⟨m, hm⟩ := List.mem_iff_get.1 hmem1
    have hlt : i + j < (m : Nat) := by
      rcases Nat.lt_trichotomy (m : Nat) (i + j) with hc | hc | hc
      · have hrel := hu.rel_get_of_lt (show m < (⟨i + j, hij⟩ : Fin u.length) from hc)
        rw [hm, hval] at hrel
        omega
      · have hem : m = (⟨i + j, hij⟩ : Fin u.length) := Fin.ext hc
        rw [hem] at hm
        rw [hval] at hm
        omega
      · exact hc
    have hb : i + (j + 1) < u.length := by
      have := m.isLt
      omega
    refine ⟨hb, ?_⟩
    have hup : u.get ⟨i + (j + 1), hb⟩ ≤ u.get ⟨i, hi⟩ + ((j : Int) + 1) := by
      rcases Nat.lt_or_ge (i + (j + 1)) (m : Nat) with hc | hc
      · have hrel := hu.rel_get_of_lt (show (⟨i + (j + 1), hb⟩ : Fin u.length) < m from hc)
        rw [hm] at hrel
        exact le_of_lt hrel
      · have heq : i + (j + 1) = (m : Nat) := by omega
        have hem : (⟨i + (j + 1), hb⟩ : Fin u.length) = m := Fin.ext (by simpa using heq)
        rw [hem, hm]
    have hlow : u.get ⟨i + j, hij⟩ < u.get ⟨i + (j + 1), hb⟩ :=
      hu.rel_get_of_lt (show (⟨i + j, hij⟩ : Fin u.length) < ⟨i + (j + 1), hb⟩ from by
        simp [Fin.lt_def])
    rw [hval] at hlow
    push_cast
    omega

theorem isConsecutiveAt_iff (u : List Int) (i : Nat) :
    isConsecutiveAt u i = true ↔
      ∀ j : Nat, 1 ≤ j → j ≤ 99 →
        i + j < u.length ∧ u.getD (i + j) 0 = u.getD i 0 + (j : Int) := by
  unfold isConsecutiveAt
  rw [List.all_eq_true]
  constructor
  · intro hall j h1 h2
    have hj : j ∈ List.range' 1 99 := by
      rw [List.mem_range'_1]
      omega
    have := hall j hj
    simpa using this
  · intro hgood j hj
    rw [List.mem_range'_1] at hj
    simpa using hgood j hj.1 (by omega)

theorem run_of_isConsecutiveAt (u : List Int) (i : Nat) (hi : i < u.length)
    (hc : isConsecutiveAt u i = true) :
    ∀ k : Nat, k ≤ 99 → u.getD i 0 + (k : Int) ∈ u := by
  intro k hk
  rcases Nat.eq_zero_or_pos k with rfl | hpos
  · rw [List.getD_eq_get u 0 hi]
    simpa using List.get_mem u i hi
  · obtain ⟨hb, hv⟩ := (isConsecutiveAt_iff u i).1 hc k hpos hk
    rw [← hv, List.getD_eq_get u 0 hb]
    exact List.get_mem u _ hb

theorem isConsecutiveAt_of_run (u : List Int) (hu : u.Sorted (· < ·))
    (m : Nat) (hm : m < u.length)
    (hrun : ∀ k : Nat, k ≤ 99 → u.get ⟨m, hm⟩ + (k : Int) ∈ u) :
    isConsecutiveAt u m = true ∧ m + 99 < u.length := by
  have hstep := sorted_get_step u hu m hm
  obtain ⟨hb99, _⟩ := hstep 99 (fun k hk => hrun k hk)
  refine ⟨(isConsecutiveAt_iff u m).2 ?_, hb99⟩
  intro j h1 h2
  obtain ⟨hb, hv⟩ := hstep j (fun k hk => hrun k (le_trans hk h2))
  refine ⟨hb, ?_⟩
  rw [List.getD_eq_get u 0 hb, List.getD_eq_get u 0 hm]
  exact hv

/-! ## Claim C1 -/

/-- **C1.** For every input date collection whose date set contains a run of
100 calendar-consecutive dates starting at `s`, `find_100_day_consecutive_window`
returns a window of exactly 100 dates, strictly increasing by exactly one day,
all members of the input collection, whose start date is minimal among all
start dates admitting a full 100-day consecutive run. -/
theorem find_window_correct (l : List Int) (s : Int)
    (hs : ∀ k : Nat, k < 100 → s + (k : Int) ∈ l) :
    ∃ w : List Int, find_100_day_consecutive_window l = some w ∧
      w.length = 100 ∧
      (∀ k : Nat, k + 1 < w.length → w.getD (k + 1) 0 = w.getD k 0 + 1) ∧
      (∀ x ∈ w, x ∈ l) ∧
      (∀ t : Int, (∀ k : Nat, k < 100 → t + (k : Int) ∈ l) → w.getD 0 0 ≤ t) := by
  have hu := sorted_uniqueSortedDates l
  -- the start of the given run sits somewhere in the sorted distinct dates
  have hs0 : s ∈ uniqueSortedDates l := by
    have := hs 0 (by omega)
    simpa using mem_uniqueSortedDates.2 (by simpa using this)
  obtain ⟨m, hmget⟩ := List.mem_iff_get.1 hs0
  have hrunm : ∀ k : Nat, k ≤ 99 →
      (uniqueSortedDates l).get ⟨(m : Nat), m.isLt⟩ + (k : Int) ∈ uniqueSortedDates l := by
    intro k hk
    have hmem := mem_uniqueSortedDates.2 (hs k (by omega))
    have hget : (uniqueSortedDates l).get ⟨(m : Nat), m.isLt⟩ = s := by
      rw [← hmget]
    rw [hget]
    exact hmem
  obtain ⟨hcm, hb⟩ :=
    isConsecutiveAt_of_run (uniqueSortedDates l) hu (m : Nat) m.isLt hrunm
  have hlen : ¬ (uniqueSortedDates l).length < 100 := by omega
  have hfsome :
      ((List.range ((uniqueSortedDates l).length - 99)).find?
        (fun i => isConsecutiveAt (uniqueSortedDates l) i)).isSome := by
    rw [List.find?_isSome]
    exact ⟨(m : Nat), by rw [List.mem_range]; omega, hcm⟩
  obtain ⟨i, hfind⟩ := Option.isSome_iff_exists.1 hfsome
  obtain ⟨hiran, hpi, hfirst⟩ := find_range_first hfind
  have hib : i < (uniqueSortedDates l).length := by omega
  -- the returned window and its pointwise description
  have hdef : find_100_day_consecutive_window l
      = some ((List.range 100).map
          (fun (k : Nat) => (uniqueSortedDates l).getD i 0 + (k : Int))) := by
    unfold find_100_day_consecutive_window
    rw [if_neg hlen, hfind]
  set w := (List.range 100).map
    (fun (k : Nat) => (uniqueSortedDates l).getD i 0 + (k : Int)) with hw
  have hwlen : w.length = 100 := by simp [hw]
  have hwk : ∀ k : Nat, k < 100 →
      w.getD k 0 = (uniqueSortedDates l).getD i 0 + (k : Int) := by
    intro k hk
    have hkl : k < w.length := by omega
    rw [List.getD_eq_get w 0 hkl]
    simp [hw]
  refine ⟨w, hdef, hwlen, ?_, ?_, ?_⟩
  · intro k hk1
    rw [hwlen] at hk1
    rw [hwk (k + 1) hk1, hwk k (by omega)]
    push_cast
    ring
  · intro x hx
    rw [hw] at hx
    simp only [List.mem_map, List.mem_range] at hx
    obtain ⟨k, hk, rfl⟩ := hx
    exact mem_uniqueSortedDates.1
      (run_of_isConsecutiveAt (uniqueSortedDates l) i hib hpi k (by omega))
  · intro t ht
    have ht0 : t ∈ uniqueSortedDates l := by
      have := ht 0 (by omega)
      exact mem_uniqueSortedDates.2 (by simpa using this)
    obtain ⟨mt, hmtget⟩ := List.mem_iff_get.1 ht0
    have hrunt : ∀ k : Nat, k ≤ 99 →
        (uniqueSortedDates l).get ⟨(mt : Nat), mt.isLt⟩ + (k : Int) ∈
          uniqueSortedDates l := by
      intro k hk
      have hmem := mem_uniqueSortedDates.2 (ht k (by omega))
      have hget : (uniqueSortedDates l).get ⟨(mt : Nat), mt.isLt⟩ = t := by
        rw [← hmtget]
      rw [hget]
      exact hmem
    obtain ⟨hct, hbt⟩ :=
      isConsecutiveAt_of_run (uniqueSortedDates l) hu (mt : Nat) mt.isLt hrunt
    have hile : i ≤ (mt : Nat) := by
      by_contra hgt
      push_neg at hgt
      have hff := hfirst (mt : Nat) hgt
      rw [hct] at hff
      simp at hff
    have hle : (uniqueSortedDates l).getD i 0 ≤ t := by
      rcases Nat.lt_or_ge i (mt : Nat) with hc | hc
      · have hrel := hu.rel_get_of_lt
          (show (⟨i, hib⟩ : Fin (uniqueSortedDates l).length) < mt from hc)
        rw [List.getD_eq_get _ 0 hib]
        have hgt2 : (uniqueSortedDates l).get mt = t := hmtget
        rw [← hgt2]
        exact le_of_lt hrel
      · have heq : i = (mt : Nat) := by omega
        rw [List.getD_eq_get _ 0 hib, ← hmtget]
        apply le_of_eq
        congr 1
        exact Fin.ext (by simpa using heq)
    rw [hwk 0 (by omega)]
    simpa using hle

/-- Witness for C1: on the dates `0..99` with run start `0`, the finder
returns a 100-day window with all the stated properties. -/
theorem find_window_correct_witness :
    ∃ w : List Int, find_100_day_consecutive_window runDates = some w ∧
      w.length = 100 ∧
      (∀ k : Nat, k + 1 < w.length → w.getD (k + 1) 0 = w.getD k 0 + 1) ∧
      (∀ x ∈ w, x ∈ runDates) ∧
      (∀ t : Int, (∀ k : Nat, k < 100 → t + (k : Int) ∈ runDates) →
        w.getD 0 0 ≤ t) :=
  find_window_correct runDates 0 (by decide)

/-! ## Claim C5 -/

/-- **C5.** For an input collection with fewer than 100 distinct dates, or
with no run of 100 consecutive calendar dates, the finder returns `none`
(and, being a total function, raises no error). -/
theorem find_window_not_found (l : List Int)
    (h : (uniqueSortedDates l).length < 100 ∨
      ¬ ∃ s : Int, ∀ k : Nat, k < 100 → s + (k : Int) ∈ l) :
    find_100_day_consecutive_window l = none := by
  by_cases hlt : (uniqueSortedDates l).length < 100
  · unfold find_100_day_consecutive_window
    rw [if_pos hlt]
  · rcases h with hlt2 | hno
    · exact absurd hlt2 hlt
    cases hfind : (List.range ((uniqueSortedDates l).length - 99)).find?
        (fun i => isConsecutiveAt (uniqueSortedDates l) i) with
    | none =>
      unfold find_100_day_consecutive_window
      rw [if_neg hlt, hfind]
    | some i =>
      exfalso
      apply hno
      obtain ⟨hiran, hpi, _⟩ := find_range_first hfind
      have hib : i < (uniqueSortedDates l).length := by omega
      refine ⟨(uniqueSortedDates l).getD i 0, ?_⟩
      intro k hk
      exact mem_uniqueSortedDates.1
        (run_of_isConsecutiveAt (uniqueSortedDates l) i hib hpi k (by omega))

/-- Witness for C5: the empty collection has fewer than 100 distinct dates,
and the finder answers `none` on it. -/
theorem find_window_not_found_witness :
    find_100_day_consecutive_window [] = none :=
  find_window_not_found [] (Or.inl (by decide))

/-! ## Claim C9 -/

/-- **C9.** Inside the finder's search, every access `unique_sorted_dates[i+j]`
with outer index `i ∈ range(len - 99)` and inner offset `j ∈ [1, 99]` is
within bounds, so the guard `i + j >= len(unique_sorted_dates)` is never
true. -/
theorem window_index_in_bounds (l : List Int) (i j : Nat)
    (hi : i < (uniqueSortedDates l).length - 99) (hj1 : 1 ≤ j) (hj2 : j ≤ 99) :
    i + j < (uniqueSortedDates l).length ∧
      ¬ i + j ≥ (uniqueSortedDates l).length := by
  omega

/-- Witness for C9: the dates `0..99`, outer index 0, inner offset 1. -/
theorem window_index_in_bounds_witness :
    0 + 1 < (uniqueSortedDates runDates).length ∧
      ¬ 0 + 1 ≥ (uniqueSortedDates runDates).length :=
  window_index_in_bounds runDates 0 1 (by decide) (by decide) (by decide)

/-! ## Claim C10 -/

/-- **C10.** The finder's output depends only on the set of input dates: two
collections with the same distinct dates — whatever their ordering or
duplication — give the same result. -/
theorem find_window_set_determined (l₁ l₂ : List Int)
    (h : ∀ x : Int, x ∈ l₁ ↔ x ∈ l₂) :
    find_100_day_consecutive_window l₁ = find_100_day_consecutive_window l₂ := by
  have husd : uniqueSortedDates l₁ = uniqueSortedDates l₂ := by
    apply List.eq_of_perm_of_sorted ?_ (sorted_le_uniqueSortedDates l₁)
      (sorted_le_uniqueSortedDates l₂)
    rw [List.perm_ext_iff_of_nodup (nodup_uniqueSortedDates l₁)
      (nodup_uniqueSortedDates l₂)]
    intro a
    rw [mem_uniqueSortedDates, mem_uniqueSortedDates]
    exact h a
  unfold find_100_day_consecutive_window
  rw [husd]

/-- Witness for C10: `[1, 0, 1]` and `[0, 1]` hold the same distinct dates,
and the finder answers the same on both. -/
theorem find_window_set_determined_witness :
    find_100_day_consecutive_window [1, 0, 1] = find_100_day_consecutive_window [0, 1] :=
  find_window_set_determined [1, 0, 1] [0, 1] (by
    intro x
    simp only [List.mem_cons, List.not_mem_nil, or_false]
    tauto)

/-! ## Helper lemmas: the groupby-mean fold equals filter/sum/count -/

theorem foldl_addReading (rs : List Reading) (acc : Int × Nat → Rat × Nat)
    (d : Int) (h : Nat) :
    (rs.foldl addReading acc (d, h)).1 = (acc (d, h)).1 + (bucketValues rs d h).sum ∧
    (rs.foldl addReading acc (d, h)).2 = (acc (d, h)).2 + (bucketValues rs d h).length := by
  induction rs generalizing acc with
  | nil => simp [bucketValues]
  | cons r rs ih =>
    rw [List.foldl_cons]
    obtain ⟨h1, h2⟩ := ih (addReading acc r)
    by_cases hd : r.date = d
    · by_cases hh : r.hour = h
      · have hkey : addReading acc r (d, h) = ((acc (d, h)).1 + r.value, (acc (d, h)).2 + 1) := by
          simp [addReading, hd, hh]
        have hbv : bucketValues (r :: rs) d h = r.value :: bucketValues rs d h := by
          simp [bucketValues, hd, hh]
        rw [hbv]
        refine ⟨?_, ?_⟩
        · rw [h1, hkey]
          simp only [List.sum_cons]
          ring
        · rw [h2, hkey]
          simp only [List.length_cons]
          omega
      · have hkey : addReading acc r (d, h) = acc (d, h) := by
          simp [addReading]
          intro _ hcontra
          exact absurd hcontra.symm hh
        have hbv : bucketValues (r :: rs) d h = bucketValues rs d h := by
          simp [bucketValues, hh]
        rw [hbv, ← hkey]
        exact ⟨h1, h2⟩
    · have hkey : addReading acc r (d, h) = acc (d, h) := by
        simp [addReading]
        intro hcontra
        exact absurd hcontra.symm hd
      have hbv : bucketValues (r :: rs) d h = bucketValues rs d h := by
        simp [bucketValues, hd]
      rw [hbv, ← hkey]
      exact ⟨h1, h2⟩

theorem sumCounts_eq (rs : List Reading) (d : Int) (h : Nat) :
    sumCounts rs (d, h) = ((bucketValues rs d h).sum, (bucketValues rs d h).length) := by
  obtain ⟨h1, h2⟩ := foldl_addReading rs (fun _ => (0, 0)) d h
  unfold sumCounts
  refine Prod.ext ?_ ?_
  · rw [h1]
    simp
  · rw [h2]
    simp

/-! ## Claim C6 -/

/-- **C6.** The value the builder stores for a populated `(date, hour)`
bucket is the arithmetic mean of all readings of that bucket; in particular
two readings of values 1 and 3 at the same `(date, hour)` give 2. -/
theorem bucket_mean_is_arith_mean (rs : List Reading) (d : Int) (hr : Nat)
    (hne : bucketValues rs d hr ≠ []) :
    bucketMean rs d hr = some (arithMean (bucketValues rs d hr)) ∧
    bucketMean [⟨0, 0, 1⟩, ⟨0, 0, 3⟩] 0 0 = some 2 := by
  constructor
  · unfold bucketMean
    rw [sumCounts_eq]
    simp only
    rw [if_neg (fun hlen => hne (List.length_eq_zero.1 hlen))]
    rfl
  · norm_num [bucketMean, sumCounts, addReading]

/-- Witness for C6: the two readings of values 1 and 3 at `(0, 0)`. -/
theorem bucket_mean_is_arith_mean_witness :
    bucketMean [⟨0, 0, 1⟩, ⟨0, 0, 3⟩] 0 0
        = some (arithMean (bucketValues [⟨0, 0, 1⟩, ⟨0, 0, 3⟩] 0 0)) ∧
      bucketMean [⟨0, 0, 1⟩, ⟨0, 0, 3⟩] 0 0 = some 2 :=
  bucket_mean_is_arith_mean [⟨0, 0, 1⟩, ⟨0, 0, 3⟩] 0 0 (by decide)

/-! ## Claim C7 -/

theorem bucketValues_perm (rs₁ rs₂ : List Reading) (hp : rs₁.Perm rs₂)
    (d : Int) (h : Nat) :
    (bucketValues rs₁ d h).Perm (bucketValues rs₂ d h) :=
  (hp.filter _).map _

theorem hasBucket_perm (rs₁ rs₂ : List Reading) (hp : rs₁.Perm rs₂)
    (d : Int) (h : Nat) :
    hasBucket rs₁ d h = hasBucket rs₂ d h := by
  unfold hasBucket
  rw [Bool.eq_iff_iff, List.any_eq_true, List.any_eq_true]
  constructor <;> rintro ⟨r, hmem, hcond⟩
  · exact ⟨r, hp.mem_iff.1 hmem, hcond⟩
  · exact ⟨r, hp.mem_iff.2 hmem, hcond⟩

/-- **C7.** The builder is order-independent: any permutation of the input
readings yields the identical daily table — the same bucket means and the
same eligibility verdict for every date. -/
theorem builder_perm_invariant (rs₁ rs₂ : List Reading) (hp : rs₁.Perm rs₂) :
    (∀ d : Int, ∀ h : Nat, bucketMean rs₁ d h = bucketMean rs₂ d h) ∧
    (∀ d : Int, eligible rs₁ d = eligible rs₂ d) := by
  constructor
  · intro d h
    have hbp := bucketValues_perm rs₁ rs₂ hp d h
    unfold bucketMean
    rw [sumCounts_eq, sumCounts_eq, hbp.sum_eq, hbp.length_eq]
  · intro d
    unfold eligible
    have hdperm : (datasetDates rs₁).Perm (datasetDates rs₂) := (hp.map _).dedup
    have hhperm : (datasetHours rs₁).Perm (datasetHours rs₂) := (hp.map _).dedup
    have hdd : (datasetDates rs₁).contains d = (datasetDates rs₂).contains d := by
      rw [Bool.eq_iff_iff]
      constructor <;> intro hc
      · have hmem : d ∈ datasetDates rs₁ := by simpa using hc
        simpa using hdperm.mem_iff.1 hmem
      · have hmem : d ∈ datasetDates rs₂ := by simpa using hc
        simpa using hdperm.mem_iff.2 hmem
    have hall : (datasetHours rs₁).all (fun h => hasBucket rs₁ d h)
        = (datasetHours rs₂).all (fun h => hasBucket rs₂ d h) := by
      rw [Bool.eq_iff_iff, List.all_eq_true, List.all_eq_true]
      constructor <;> intro hal x hx
      · rw [← hasBucket_perm rs₁ rs₂ hp d x]
        exact hal x (hhperm.mem_iff.2 hx)
      · rw [hasBucket_perm rs₁ rs₂ hp d x]
        exact hal x (hhperm.mem_iff.1 hx)
    rw [hdd, hall]

/-- Witness for C7: a two-reading list against its reversal, compared at
date 0, hour 1, and for eligibility at date 0. -/
theorem builder_perm_invariant_witness :
    bucketMean [⟨0, 0, 1⟩, ⟨0, 1, 2⟩] 0 1 = bucketMean [⟨0, 1, 2⟩, ⟨0, 0, 1⟩] 0 1 ∧
    eligible [⟨0, 0, 1⟩, ⟨0, 1, 2⟩] 0 = eligible [⟨0, 1, 2⟩, ⟨0, 0, 1⟩] 0 :=
  ⟨(builder_perm_invariant [⟨0, 0, 1⟩, ⟨0, 1, 2⟩] [⟨0, 1, 2⟩, ⟨0, 0, 1⟩]
      (by decide)).1 0 1,
   (builder_perm_invariant [⟨0, 0, 1⟩, ⟨0, 1, 2⟩] [⟨0, 1, 2⟩, ⟨0, 0, 1⟩]
      (by decide)).2 0⟩

/-! ## Claim C3 -/

/-- **C3** (code bug). In `rs23` the single date 0 has readings only at hours
0..22 and hour 23 occurs nowhere in the file, yet the cleaned pivot keeps the
date: `pivot_table` creates no hour-23 column, so `dropna()` finds no `NaN`
to drop. The `eligible24` conjunct shows the 24-hour criterion the claim (and
the code's own comment, line 137) demand is violated at this input. -/
theorem eligibility_misses_globally_absent_hour :
    eligible rs23 0 = true ∧ hasBucket rs23 0 23 = false ∧
      eligible24 rs23 0 = false := by
  decide

/-! ## Claim C2 -/

/-- **C2** fails as stated: with the two datasets `dsX` and `dsY` (a single
reading each, date 0, hour 0), date 0 appears in the common-day sequence even
though it belongs to neither dataset's eligible-date set in the claim's sense
(all 24 hourly buckets present): the code intersects the raw date sets
`set(df['date'])`, not the eligible-date sets. -/
theorem common_dates_uses_raw_date_sets :
    common_dates [dsX, dsY] = [0] ∧ eligible24 dsX 0 = false ∧
      eligible24 dsY 0 = false := by
  decide

theorem mem_foldl_filter_inter (L : List (List Int)) (init : List Int) (d : Int) :
    d ∈ L.foldl (fun a b => a.filter (fun x => b.contains x)) init ↔
      d ∈ init ∧ ∀ s ∈ L, d ∈ s := by
  induction L generalizing init with
  | nil => simp
  | cons s L ih =>
    rw [List.foldl_cons, ih]
    simp only [List.mem_filter, List.mem_cons]
    constructor
    · rintro ⟨⟨hdi, hds⟩, hall⟩
      refine ⟨hdi, ?_⟩
      intro t ht
      rcases ht with rfl | ht
      · simpa using hds
      · exact hall t ht
    · rintro ⟨hdi, hall⟩
      exact ⟨⟨hdi, by simpa using hall s (Or.inl rfl)⟩, fun t ht => hall t (Or.inr ht)⟩

theorem nodup_foldl_filter (L : List (List Int)) (init : List Int)
    (h : init.Nodup) :
    (L.foldl (fun a b => a.filter (fun x => b.contains x)) init).Nodup := by
  induction L generalizing init with
  | nil => simpa
  | cons s L ih => exact ih _ (h.filter _)

theorem common_dates_spec (dss : List (List Reading)) (hne : dss ≠ []) :
    ∃ X : List Int, common_dates dss = (X.insertionSort (· ≤ ·)).reverse ∧
      X.Nodup ∧ ∀ d : Int, d ∈ X ↔ ∀ rs ∈ dss, d ∈ datasetDates rs := by
  match dss, hne with
  | rs :: rest, _ =>
    refine ⟨(rest.map datasetDates).foldl
        (fun a b => a.filter (fun x => b.contains x)) (datasetDates rs),
      by simp [common_dates], nodup_foldl_filter _ _ (List.nodup_dedup _), ?_⟩
    intro d
    rw [mem_foldl_filter_inter]
    constructor
    · rintro ⟨h1, h2⟩ rs2 hrs2
      rcases List.mem_cons.1 hrs2 with rfl | hrs2
      · exact h1
      · exact h2 (datasetDates rs2) (List.mem_map_of_mem _ hrs2)
    · intro hall
      refine ⟨hall rs (List.mem_cons_self rs rest), ?_⟩
      intro s hs
      obtain ⟨rs2, hrs2, rfl⟩ := List.mem_map.1 hs
      exact hall rs2 (List.mem_cons_of_mem rs hrs2)

theorem mem_common_dates (dss : List (List Reading)) (hne : dss ≠ []) (d : Int) :
    d ∈ common_dates dss ↔ ∀ rs ∈ dss, d ∈ datasetDates rs := by
  obtain ⟨X, hX, _, hmem⟩ := common_dates_spec dss hne
  rw [hX, List.mem_reverse, List.mem_insertionSort]
  exact hmem d

/-- **C2 (amended).** A date is in the common-day sequence iff it belongs to
every dataset's raw date set — the dates with at least one retained reading,
`set(df['date'])` — not the eligible-date sets; the result is that
intersection (hence a subset of every input set and the maximal such subset)
and does not depend on the order in which the datasets are combined. -/
theorem common_dates_characterization (dss : List (List Reading)) (hne : dss ≠ []) :
    (∀ d : Int, d ∈ common_dates dss ↔ ∀ rs ∈ dss, d ∈ datasetDates rs) ∧
    (∀ dss₂ : List (List Reading), dss.Perm dss₂ →
      common_dates dss = common_dates dss₂) := by
  refine ⟨mem_common_dates dss hne, ?_⟩
  intro dss₂ hp
  have hne₂ : dss₂ ≠ [] := by
    intro hnil
    rw [hnil] at hp
    exact hne hp.eq_nil
  obtain ⟨X₁, hX₁, hn₁, hm₁⟩ := common_dates_spec dss hne
  obtain ⟨X₂, hX₂, hn₂, hm₂⟩ := common_dates_spec dss₂ hne₂
  rw [hX₁, hX₂]
  have hsorted : X₁.insertionSort (· ≤ ·) = X₂.insertionSort (· ≤ ·) := by
    apply List.eq_of_perm_of_sorted ?_ (List.sorted_insertionSort _ _)
      (List.sorted_insertionSort _ _)
    rw [List.perm_ext_iff_of_nodup
      (((List.perm_insertionSort _ _).nodup_iff).2 hn₁)
      (((List.perm_insertionSort _ _).nodup_iff).2 hn₂)]
    intro a
    rw [List.mem_insertionSort, List.mem_insertionSort, hm₁, hm₂]
    constructor <;> intro hall rs hrs
    · exact hall rs (hp.mem_iff.2 hrs)
    · exact hall rs (hp.mem_iff.1 hrs)
  rw [hsorted]

/-- Witness for the amended C2: the two one-reading datasets `dsX`, `dsY`. -/
theorem common_dates_characterization_witness :
    (∀ d : Int, d ∈ common_dates [dsX, dsY] ↔
      ∀ rs ∈ [dsX, dsY], d ∈ datasetDates rs) ∧
    (∀ dss₂ : List (List Reading), List.Perm [dsX, dsY] dss₂ →
      common_dates [dsX, dsY] = common_dates dss₂) :=
  common_dates_characterization [dsX, dsY] (by decide)

/-! ## Claim C4 -/

/-- **C4** fails as stated: in `[goodRow, badRow]` the first row's timestamp
and value both parse, yet the output is empty. Only the timestamp parse uses
`errors='coerce'`; `.astype(float)` raises on `badRow`'s value and the
file-level `except` returns an empty frame, discarding the good row too. -/
theorem load_drops_good_rows_on_value_error :
    load_single_dataset [goodRow, badRow] = [] ∧
      goodRow.ts = some 0 ∧ goodRow.val = ValParse.ok 1 := by
  decide

/-- **C4 (amended).** If no consumption value in the file makes `float`
raise, a row is retained iff both its timestamp and its value parse, and
rows failing a parse are silently dropped. If any row's value makes `float`
raise, the whole file degrades to an empty result — the exception is caught
at file level, so nothing propagates, but every row of the file is lost, not
merely the offending one. -/
theorem load_single_dataset_retention (rows : List RawRow) :
    ((∀ r ∈ rows, r.val ≠ ValParse.err) →
      ∀ t : Int, ∀ v : Rat,
        ((t, v) ∈ load_single_dataset rows ↔
          ∃ r ∈ rows, r.ts = some t ∧ r.val = ValParse.ok v)) ∧
    ((∃ r ∈ rows, r.val = ValParse.err) → load_single_dataset rows = []) := by
  constructor
  · intro hno t v
    unfold load_single_dataset
    rw [if_neg (by
      simp only [List.any_eq_true, not_exists, not_and]
      intro r hr
      simpa using hno r hr)]
    rw [List.mem_filterMap]
    constructor
    · rintro ⟨r, hr, hmatch⟩
      refine ⟨r, hr, ?_⟩
      cases hts : r.ts with
      | none =>
        rw [hts] at hmatch
        simp at hmatch
      | some t2 =>
        cases hval : r.val with
        | ok v2 =>
          rw [hts, hval] at hmatch
          simp only [Option.some.injEq, Prod.mk.injEq] at hmatch
          exact ⟨by rw [hmatch.1], by rw [hmatch.2]⟩
        | nanVal =>
          rw [hts, hval] at hmatch
          simp at hmatch
        | err =>
          rw [hts, hval] at hmatch
          simp at hmatch
    · rintro ⟨r, hr, hts, hval⟩
      exact ⟨r, hr, by rw [hts, hval]⟩
  · rintro ⟨r, hr, hval⟩
    unfold load_single_dataset
    rw [if_pos (by
      rw [List.any_eq_true]
      exact ⟨r, hr, by simpa using hval⟩)]

/-- Witness for the amended C4: in `mixedRows` (a good row, a `NaT`-timestamp
row, a `NaN`-value row — no raising value) the pair `(0, 1)` is retained
exactly because the good row carries it. -/
theorem load_single_dataset_retention_witness :
    ((0 : Int), (1 : Rat)) ∈ load_single_dataset mixedRows ↔
      ∃ r ∈ mixedRows, r.ts = some 0 ∧ r.val = ValParse.ok 1 :=
  (load_single_dataset_retention mixedRows).1 (by decide) 0 1

/-! ## Claim C8 -/

/-- **C8** fails as stated: with `envBadWrite` the fetch of "a" succeeds but
the file write raises an `OSError`, which
`except requests.exceptions.RequestException` does not catch — the batch
aborts and "b" is never processed, against the claim's "any download failure
(… I/O error) … does not abort processing of the remaining files". -/
theorem download_write_error_aborts_batch :
    download_data_if_needed envBadWrite ["a", "b"] (fun _ => none) = none := by
  rfl

theorem option_or_or_self {α : Type} (a b : Option α) : (a.or b).or b = a.or b := by
  cases a <;> cases b <;> rfl

/-- **C8 (amended).** As long as no file write raises, the batch always
completes: an id whose file already exists keeps its bytes untouched; a
missing file receives exactly the network's bytes on success and stays
absent on a network failure (timeout, non-2xx, connection error), which does
not abort the remaining downloads; ids outside the batch are untouched. An
I/O error while writing, however, is not caught and aborts the batch. -/
theorem download_batch_spec (env : DlEnv) (hashes : List String) :
    ∀ fs : String → Option (List Nat),
      (∀ h ∈ hashes, env.writeOk h = true) →
      ∃ fs₂, download_data_if_needed env hashes fs = some fs₂ ∧
        (∀ h ∈ hashes, fs₂ h = (fs h).or (env.net h)) ∧
        (∀ h : String, h ∉ hashes → fs₂ h = fs h) := by
  induction hashes with
  | nil =>
    intro fs _
    exact ⟨fs, rfl, by simp, fun _ _ => rfl⟩
  | cons h rest ih =>
    intro fs hw
    have hwh : env.writeOk h = true := hw h (List.mem_cons_self h rest)
    obtain ⟨fs1, hone, hfs1h, hfs1x⟩ :
        ∃ fs1, downloadOne env fs h = some fs1 ∧
          fs1 h = (fs h).or (env.net h) ∧ ∀ x, x ≠ h → fs1 x = fs x := by
      unfold downloadOne
      cases hfh : fs h with
      | some c => exact ⟨fs, rfl, by simp [hfh], fun _ _ => rfl⟩
      | none =>
        cases hnet : env.net h with
        | none => exact ⟨fs, rfl, by simp [hfh, hnet], fun _ _ => rfl⟩
        | some c =>
          rw [hwh]
          refine ⟨fun x => if x = h then some c else fs x, by simp, ?_, ?_⟩
          · simp [hfh, hnet]
          · intro x hx
            simp [hx]
    obtain ⟨fs₂, hrun, hmem, hout⟩ :=
      ih fs1 (fun x hx => hw x (List.mem_cons_of_mem h hx))
    refine ⟨fs₂, ?_, ?_, ?_⟩
    · show download_data_if_needed env (h :: rest) fs = some fs₂
      unfold download_data_if_needed
      rw [hone]
      exact hrun
    · intro x hx
      rcases List.mem_cons.1 hx with rfl | hx2
      · by_cases hxr : x ∈ rest
        · rw [hmem x hxr, hfs1h, option_or_or_self]
        · rw [hout x hxr, hfs1h]
      · by_cases hxh : x = h
        · subst hxh
          rw [hmem x hx2, hfs1h, option_or_or_self]
        · rw [hmem x hx2, hfs1x x hxh]
    · intro x hx
      have hxh : x ≠ h := fun he => hx (he ▸ List.mem_cons_self h rest)
      have hxr : x ∉ rest := fun hr => hx (List.mem_cons_of_mem h hr)
      rw [hout x hxr, hfs1x x hxh]

/-- Witness for the amended C8: the environment where fetching "a" raises a
`RequestException` and "b" succeeds, run over the batch `["a", "b"]` on an
empty directory. -/
theorem download_batch_spec_witness :
    ∃ fs₂, download_data_if_needed envNetFail ["a", "b"] (fun _ => none) = some fs₂ ∧
      (∀ h ∈ ["a", "b"], fs₂ h = ((fun _ => none : String → Option (List Nat)) h).or
        (envNetFail.net h)) ∧
      (∀ h : String, h ∉ ["a", "b"] → fs₂ h = (fun _ => none : String → Option (List Nat)) h) :=
  download_batch_spec envNetFail ["a", "b"] (fun _ => none) (by decide)

end Andmed
